import Mathlib

/-!
Verification development for the OpenParliamentTV-Tools merge/alignment core.

The definitions below are shallow embeddings of the Python modules
`optv/parliaments/DE/merger/merge_session.py` (item merging and
Needleman-Wunsch sequence alignment) and
`optv/parliaments/DE/aligner/align_sentences.py` (sentence timing
injection and comment-timing propagation).  Python dicts become
structures, in-place mutation becomes functional update, the in-place
score matrix becomes a `Nat → Nat → Int` state threaded through folds,
and code that can raise (`KeyError` / `IndexError`) returns `Except`.
-/

namespace Merger

/-- A person record (`people` entries): display label plus role context. -/
structure Person where
  label : String
  context : String := ""
deriving Repr, DecidableEq

/-- The `agendaItem` sub-dict of a speech item.  `proceedingIndex`,
`proceedingIndexes` and `mediaIndex` are the keys written by
`merge_item`; absent keys are modelled as `none` / `[]`. -/
structure AgendaItem where
  speechIndex : Nat
  officialTitle : String
  proceedingIndex : Option Nat := none
  proceedingIndexes : List Nat := []
  mediaIndex : Option Nat := none
deriving Repr, DecidableEq

/-- A speech-like item as handled by `merge_session.py`.  `textContents`
and `documents` are opaque to the merger (it only concatenates them), so
they are modelled as opaque strings.  `debug` models the free-form
provenance dict as an association list. -/
structure Item where
  agendaItem : AgendaItem
  people : List Person
  textContents : List String := []
  documents : List String := []
  debug : List (String × String) := []
deriving Repr, DecidableEq

instance : Inhabited Item :=
  ⟨{ agendaItem := { speechIndex := 0, officialTitle := "" }, people := [] }⟩

/-- `remove_accents`: NFKD-normalize then drop combining characters.
The Unicode NFKD decomposition table is not modelled (the embedding is
exact on strings without precomposed accented characters); combining
marks U+0300-U+036F are dropped as `unicodedata.combining` reports. -/
def remove_accents (s : String) : String :=
  String.mk (s.data.filter (fun c => !(0x300 ≤ c.toNat && c.toNat ≤ 0x36F)))

/-- `merge_item(mediaitem, proceedingitems)`: copy the media item and
graft data of the matched proceeding items onto it.  The Python code
reads `proceedingitems[0]`; callers always pass a non-empty list
(groups produced by `merge_data` are never empty), `headD` supplies the
out-of-range default. -/
def merge_item (mediaitem : Item) (proceedingitems : List Item) : Item :=
  let first_proceeding := proceedingitems.headD default
  { mediaitem with
    agendaItem := { mediaitem.agendaItem with
      proceedingIndex := some first_proceeding.agendaItem.speechIndex
      proceedingIndexes := proceedingitems.map (fun p => p.agendaItem.speechIndex)
      mediaIndex := some mediaitem.agendaItem.speechIndex }
    people := (proceedingitems.map (fun p => p.people)).flatten
    textContents := (proceedingitems.map (fun p => p.textContents)).flatten
    documents := (proceedingitems.map (fun p => p.documents)).flatten }

/-! ### Needleman-Wunsch alignment (`needleman_wunsch_align`) -/

/-- `config["speaker_weight"]`. -/
def speaker_weight : Int := 4
/-- `config["title_weight"]`. -/
def title_weight : Int := 2
/-- `config["merge_penalty"]`. -/
def merge_penalty : Int := -1
/-- `config["split_penalty"]`. -/
def split_penalty : Int := -1

/-- Entry of the index lists produced by `build_index`. -/
structure IndexedEntry where
  index : Nat
  speaker : String
  title : String
  item : Item
deriving Repr, DecidableEq

instance : Inhabited IndexedEntry :=
  ⟨{ index := 0, speaker := "", title := "", item := default }⟩

/-- `build_index(l)`: extract index, speaker (first person's label, or
`"NO_SPEAKER"`) and title for each item. -/
def build_index (l : List Item) : List IndexedEntry :=
  l.map (fun item =>
    { index := item.agendaItem.speechIndex
      speaker := match item.people with
        | [] => "NO_SPEAKER"
        | p :: _ => p.label
      title := item.agendaItem.officialTitle
      item := item })

/-- Python `int(bool)`. -/
def boolInt (b : Bool) : Int := if b then 1 else 0

/-- `similarity(m, p)` of `needleman_wunsch_align`: weighted strict
equality of speaker and title. -/
def similarity (m p : IndexedEntry) : Int :=
  speaker_weight * boolInt (m.speaker == p.speaker)
    + title_weight * boolInt (m.title == p.title)

/-- Python `str.strip()`: remove leading and trailing whitespace. -/
def stripEnds (s : String) : String :=
  String.mk (((s.data.dropWhile Char.isWhitespace).reverse.dropWhile
    Char.isWhitespace).reverse)

/-- The similarity scorer as the spec words it (for comparison with the
implementation): leading/trailing whitespace is stripped from both
operands of each string comparison before the equality check. -/
def similaritySpecWords (m p : IndexedEntry) : Int :=
  speaker_weight * boolInt (stripEnds m.speaker == stripEnds p.speaker)
    + title_weight * boolInt (stripEnds m.title == stripEnds p.title)

/-- The mutable score matrix `scores`, modelled as a total function;
the algorithm only reads indices below the list lengths. -/
def Mat := Nat → Nat → Int

/-- In-place assignment `scores[i][j] = v`. -/
def mset (s : Mat) (i j : Nat) (v : Int) : Mat :=
  fun a b => if a = i ∧ b = j then v else s a b

/-- The right-hand side of the update
`scores[i][j] = max(scores[i-1][j-1] + similarity(i, j),
scores[i-1][j] + split_penalty, scores[i][j-1] + merge_penalty)`. -/
def cellValue (sim : Nat → Nat → Int) (s : Mat) (i j : Nat) : Int :=
  max (s (i - 1) (j - 1) + sim i j)
    (max (s (i - 1) j + split_penalty) (s i (j - 1) + merge_penalty))

/-- Inner loop `for j in range(1, len(proceedings_index))`, started at
an arbitrary list of columns for the loop invariant. -/
def fillRowFrom (sim : Nat → Nat → Int) (i : Nat) (s : Mat) (js : List Nat) : Mat :=
  js.foldl (fun s j => mset s i j (cellValue sim s i j)) s

/-- One full inner loop over columns `1 .. P-1` for row `i`. -/
def fillRow (sim : Nat → Nat → Int) (P i : Nat) (s : Mat) : Mat :=
  fillRowFrom sim i s (List.range' 1 (P - 1))

/-- Outer loop `for i in range(1, len(media_index))`, started at an
arbitrary list of rows for the loop invariant. -/
def fillRowsFrom (sim : Nat → Nat → Int) (P : Nat) (s : Mat) (rows : List Nat) : Mat :=
  rows.foldl (fun s i => fillRow sim P i s) s

/-- The complete score matrix: initialized with the raw similarity
(`scores = [[similarity(m, p) for p ...] for m ...]`), then filled by
the double loop. -/
def buildScores (sim : Nat → Nat → Int) (M P : Nat) : Mat :=
  fillRowsFrom sim P (fun i j => sim i j) (List.range' 1 (M - 1))

/-- Similarity of the `i`-th media entry and `j`-th proceedings entry. -/
def simIdx (media_index proceedings_index : List IndexedEntry) (i j : Nat) : Int :=
  similarity (media_index.getD i default) (proceedings_index.getD j default)

/-- The score matrix of `needleman_wunsch_align` for the given inputs. -/
def scores (proceedings media : List Item) : Mat :=
  buildScores (simIdx (build_index media) (build_index proceedings))
    (build_index media).length (build_index proceedings).length

/-- One alignment step of the returned path. -/
structure Step where
  media_index : Nat
  proceeding_index : Nat
  score : Int
  media : Item
  proceeding : Item
deriving Repr, DecidableEq

instance : Inhabited Step :=
  ⟨{ media_index := 0, proceeding_index := 0, score := 0,
     media := default, proceeding := default }⟩

/-- The body of the backtracking loop `while i > 0 and j > 0`,
recursing on an explicit fuel (the quantity `i + j`, which strictly
decreases on every iteration of the Python loop, so the fuel below
never runs out).  A step for the current cell is appended first, then
the cursor moves according to the comparisons of the code
(`diagonal = s[i-1][j-1]`, `up = s[i][j-1]`, `left = s[i-1][j]`):
diagonal on `diagonal >= up and diagonal >= left`, else `i - 1` on
`left >= up`, else `j - 1`. -/
def backtrackFuel (s : Mat) (max_score : Int)
    (media_index proceedings_index : List IndexedEntry) :
    Nat → Nat → Nat → List Step
  | 0, _, _ => []
  | fuel + 1, i, j =>
    if 0 < i ∧ 0 < j then
      { media_index := i
        proceeding_index := j
        score := max_score
        media := (media_index.getD i default).item
        proceeding := (proceedings_index.getD j default).item }
      :: (if s (i - 1) (j - 1) ≥ s i (j - 1) ∧ s (i - 1) (j - 1) ≥ s (i - 1) j then
            backtrackFuel s max_score media_index proceedings_index fuel (i - 1) (j - 1)
          else if s (i - 1) j ≥ s i (j - 1) then
            backtrackFuel s max_score media_index proceedings_index fuel (i - 1) j
          else
            backtrackFuel s max_score media_index proceedings_index fuel i (j - 1))
    else []

/-- The backtracking loop, started with enough fuel for all its
iterations. -/
def backtrack (s : Mat) (max_score : Int)
    (media_index proceedings_index : List IndexedEntry) (i j : Nat) : List Step :=
  backtrackFuel s max_score media_index proceedings_index (i + j) i j

/-- `needleman_wunsch_align(proceedings, media, options)`: build the
index lists and the score matrix, then backtrack from the bottom-right
cell.  The collected path is returned as built (most recent cell
first); no reversal is performed by the code. -/
def needleman_wunsch_align (proceedings media : List Item) : List Step :=
  let media_index := build_index media
  let proceedings_index := build_index proceedings
  let s := buildScores (simIdx media_index proceedings_index)
    media_index.length proceedings_index.length
  let i := media_index.length - 1
  let j := proceedings_index.length - 1
  backtrack s (s i j) media_index proceedings_index i j

/-- Splitting loop of `itertools.groupby(path, lambda i: i['media_index'])`,
recursing on an explicit fuel (the list length strictly decreases at
every split, so the fuel below never runs out). -/
def groupStepsFuel : Nat → List Step → List (List Step)
  | 0, _ => []
  | _ + 1, [] => []
  | fuel + 1, x :: xs =>
    (x :: xs.takeWhile (fun y => y.media_index == x.media_index))
      :: groupStepsFuel fuel (xs.dropWhile (fun y => y.media_index == x.media_index))

/-- `itertools.groupby(path, lambda i: i['media_index'])`: split the
path into maximal runs of consecutive steps sharing a media index. -/
def groupSteps (l : List Step) : List (List Step) :=
  groupStepsFuel l.length l

/-- `merge_data(proceedings, media, options)`: align, group the path by
media index, and merge each group. -/
def merge_data (proceedings media : List Item) : List Item :=
  let path := needleman_wunsch_align proceedings media
  (groupSteps path).map (fun group =>
    merge_item (group.headD default).media (group.map (fun st => st.proceeding)))

/-- Number of groups of the orchestration that contain a step with the
given media index. -/
def groupCountFor (proceedings media : List Item) (idx : Nat) : Nat :=
  (groupSteps (needleman_wunsch_align proceedings media)).countP
    (fun g => g.any (fun st => st.media_index == idx))

/-- "Every media index in [0, M) appears in exactly one group". -/
def coversAllMedia (proceedings media : List Item) : Prop :=
  ∀ idx < media.length, groupCountFor proceedings media idx = 1

instance (proceedings media : List Item) : Decidable (coversAllMedia proceedings media) :=
  Nat.decidableBallLT _ _

/-- The people-merge as the spec words it (for comparison with the
implementation): iterate `media.people` and then every matched
proceeding's `people`, building an insertion-ordered mapping keyed by
the accent-stripped label, so a later entry with the same key
overwrites an earlier one while the order of first appearance is
preserved. -/
def mergePeopleSpecWords (mediaitem : Item) (proceedingitems : List Item) : List Person :=
  (mediaitem.people ++ (proceedingitems.map (fun p => p.people)).flatten).foldl
    (fun acc person =>
      if acc.any (fun q => remove_accents q.label == remove_accents person.label) then
        acc.map (fun q =>
          if remove_accents q.label == remove_accents person.label then person else q)
      else acc ++ [person]) []

/-! ### Concrete inputs used by the claim theorems -/

/-- An item with one speaker label and a title. -/
def mkItem (idx : Nat) (sp ti : String) : Item :=
  { agendaItem := { speechIndex := idx, officialTitle := ti },
    people := [{ label := sp }] }

/-- Proceedings where no speaker/title matches the media lists. -/
def exProcA : List Item := [mkItem 1 "PA" "TA", mkItem 2 "PB" "TB", mkItem 3 "PC" "TC"]
/-- Media items, all distinct from `exProcA`. -/
def exMediaA : List Item := [mkItem 1 "MA" "UA", mkItem 2 "MB" "UB", mkItem 3 "MC" "UC"]
/-- A single-item proceedings list. -/
def exProcB : List Item := [mkItem 1 "A" "T"]
/-- A single-item media list (same content as `exProcB`). -/
def exMediaB : List Item := [mkItem 1 "A" "T"]
/-- Proceedings identical to `exMediaC` (perfect diagonal). -/
def exProcC : List Item := [mkItem 1 "A" "T1", mkItem 2 "B" "T2", mkItem 3 "C" "T3"]
/-- Media identical to `exProcC`. -/
def exMediaC : List Item := [mkItem 1 "A" "T1", mkItem 2 "B" "T2", mkItem 3 "C" "T3"]

/-- The first step of the path aligned for `exProcC` / `exMediaC`. -/
def exStepC : Step := (needleman_wunsch_align exProcC exMediaC).headD default

/-- A person acting as the media item's speaker. -/
def alice : Person := { label := "Alice", context := "main-speaker" }
/-- A person occurring twice in a proceeding item. -/
def bob : Person := { label := "Bob", context := "speaker" }
/-- Media item whose people list is `[alice]`. -/
def exMediaItem : Item :=
  { agendaItem := { speechIndex := 1, officialTitle := "T" }, people := [alice] }
/-- Proceeding item whose people list is `[bob, bob]`. -/
def exProcItem : Item :=
  { agendaItem := { speechIndex := 2, officialTitle := "T" }, people := [bob, bob] }

/-- Indexed entry whose speaker label carries a trailing space. -/
def exEntrySpace : IndexedEntry :=
  { index := 0, speaker := "Alice ", title := "T", item := default }
/-- Indexed entry with the same speaker label, no trailing space. -/
def exEntryNoSpace : IndexedEntry :=
  { index := 0, speaker := "Alice", title := "T", item := default }

end Merger

namespace Aligner

/-- A sentence record.  `timeStart`/`timeEnd` model the optional dict
keys written by the alignment stage (`none` = key absent). -/
structure Sentence where
  text : String := ""
  timeStart : Option String := none
  timeEnd : Option String := none
deriving Repr, DecidableEq

instance : Inhabited Sentence := ⟨{}⟩

/-- One `textBody` entry: a typed segment (`speech`, `comment`, ...)
with its sentences. -/
structure Body where
  type : String
  sentences : List Sentence := []
deriving Repr, DecidableEq

/-- One `textContents` entry. -/
structure Content where
  textBody : List Body := []
deriving Repr, DecidableEq

/-- A speech of the merged session data, as read by
`align_sentences.py`. -/
structure Speech where
  speechIndex : Nat
  textContents : List Content := []
deriving Repr, DecidableEq

/-- A timed fragment returned by the forced-alignment engine, already
restricted to regular fragments; `begin`/`end` timecodes are kept as
their string rendering (the code stores `str(f.begin)` / `str(f.end)`). -/
structure Fragment where
  fragBegin : String
  fragEnd : String
deriving Repr, DecidableEq

/-- The sentence identifier `s{speechIndex}-{contentIndex}-{bodyIndex}-{sentenceIndex}`
generated by `speech_sentence_iter`. -/
def identFor (speechIndex ci bi si : Nat) : String :=
  "s" ++ toString speechIndex ++ "-" ++ toString ci ++ "-" ++ toString bi
    ++ "-" ++ toString si

/-- All identifiers produced by `speech_sentence_iter` (sentences of
`speech`-type bodies only), in iteration order. -/
def speechSentenceIdents (speech : Speech) : List String :=
  (speech.textContents.enum.map (fun ci_c =>
    (ci_c.2.textBody.enum.map (fun bi_b =>
      if bi_b.2.type == "speech" then
        bi_b.2.sentences.enum.map (fun si_s =>
          identFor speech.speechIndex ci_c.1 bi_b.1 si_s.1)
      else [])).flatten)).flatten

/-- `sentence['timeStart'] = str(fragments[ident].begin)` and the same
for `timeEnd`: the unchecked dict lookup `fragments[ident]` raises
`KeyError` when the identifier is absent, modelled as `Except.error`. -/
def injectSentence (fragments : List (String × Fragment)) (ident : String)
    (s : Sentence) : Except String Sentence :=
  match fragments.lookup ident with
  | none => Except.error ident
  | some f => Except.ok { s with timeStart := some f.fragBegin, timeEnd := some f.fragEnd }

/-- Write-back over the sentences of one `speech`-type body, keeping
the enumeration index `si`. -/
def injectSentences (fragments : List (String × Fragment))
    (speechIndex ci bi : Nat) : Nat → List Sentence → Except String (List Sentence)
  | _, [] => Except.ok []
  | si, s :: rest => do
    let s2 ← injectSentence fragments (identFor speechIndex ci bi si) s
    let rest2 ← injectSentences fragments speechIndex ci bi (si + 1) rest
    Except.ok (s2 :: rest2)

/-- Only `speech`-type bodies are timed (`speech_sentence_iter` filters
on the body type). -/
def injectBody (fragments : List (String × Fragment)) (speechIndex ci bi : Nat)
    (b : Body) : Except String Body :=
  if b.type == "speech" then do
    let ss ← injectSentences fragments speechIndex ci bi 0 b.sentences
    Except.ok { b with sentences := ss }
  else Except.ok b

/-- Write-back over a content's bodies, keeping the enumeration index. -/
def injectBodies (fragments : List (String × Fragment)) (speechIndex ci : Nat) :
    Nat → List Body → Except String (List Body)
  | _, [] => Except.ok []
  | bi, b :: rest => do
    let b2 ← injectBody fragments speechIndex ci bi b
    let rest2 ← injectBodies fragments speechIndex ci (bi + 1) rest
    Except.ok (b2 :: rest2)

/-- Write-back over a speech's contents, keeping the enumeration index. -/
def injectContents (fragments : List (String × Fragment)) (speechIndex : Nat) :
    Nat → List Content → Except String (List Content)
  | _, [] => Except.ok []
  | ci, c :: rest => do
    let bs ← injectBodies fragments speechIndex ci 0 c.textBody
    let rest2 ← injectContents fragments speechIndex (ci + 1) rest
    Except.ok ({ textBody := bs } :: rest2)

/-- The timing write-back loop of `align_audio`
(`for ident, sentence in speech_sentence_iter(speech): ...`): the first
identifier missing from `fragments` raises (`Except.error ident`). -/
def injectTimings (fragments : List (String × Fragment)) (speech : Speech) :
    Except String Speech := do
  let cs ← injectContents fragments speech.speechIndex 0 speech.textContents
  Except.ok { speech with textContents := cs }

/-- Splitting loop of `groupby(body_iter(speech), key=lambda body:
body['type'])`, recursing on an explicit fuel (the list length
strictly decreases at every split, so the fuel below never runs out). -/
def runsByTypeFuel : Nat → List Body → List (List Body)
  | 0, _ => []
  | _ + 1, [] => []
  | fuel + 1, x :: xs =>
    (x :: xs.takeWhile (fun y => y.type == x.type)) ::
      runsByTypeFuel fuel (xs.dropWhile (fun y => y.type == x.type))

/-- `groupby(body_iter(speech), key=lambda body: body['type'])`: maximal
runs of consecutive same-type bodies. -/
def runsByType (bodies : List Body) : List (List Body) :=
  runsByTypeFuel bodies.length bodies

/-- `previous_current_next`: windows (previous run, current run, next
run) with `none` at the boundaries.  The Python generator is never
invoked on an empty run list by the claims below; the empty case maps
to no windows. -/
def pcnAux (prv : Option (List Body)) :
    List (List Body) → List (Option (List Body) × List Body × Option (List Body))
  | [] => []
  | [c] => [(prv, c, none)]
  | c :: n :: rest => (prv, c, some n) :: pcnAux (some c) (n :: rest)

/-- All (previous, current, next) windows over the runs. -/
def pcnWindows (runs : List (List Body)) :
    List (Option (List Body) × List Body × Option (List Body)) :=
  pcnAux none runs

/-- `b['sentences'][-1]` (raises IndexError on an empty list). -/
def lastSentenceE (b : Body) : Except String Sentence :=
  match b.sentences.getLast? with
  | some s => Except.ok s
  | none => Except.error "IndexError"

/-- `b['sentences'][0]` (raises IndexError on an empty list). -/
def firstSentenceE (b : Body) : Except String Sentence :=
  match b.sentences with
  | [] => Except.error "IndexError"
  | s :: _ => Except.ok s

/-- `start = prv['sentences'][-1].get('timeStart', '') if prv else
nxt['sentences'][0].get('timeStart', '') if nxt else ''`. -/
def computeStart (prv nxt : Option Body) : Except String String :=
  match prv with
  | some b => do
    let s ← lastSentenceE b
    Except.ok (s.timeStart.getD "")
  | none =>
    match nxt with
    | some b => do
      let s ← firstSentenceE b
      Except.ok (s.timeStart.getD "")
    | none => Except.ok ""

/-- `end = nxt['sentences'][0].get('timeEnd', '') if nxt else
prv['sentences'][-1].get('timeEnd', '') if prv else ''`. -/
def computeEnd (prv nxt : Option Body) : Except String String :=
  match nxt with
  | some b => do
    let s ← firstSentenceE b
    Except.ok (s.timeEnd.getD "")
  | none =>
    match prv with
    | some b => do
      let s ← lastSentenceE b
      Except.ok (s.timeEnd.getD "")
    | none => Except.ok ""

/-- `if start: cur['sentences'][0]['timeStart'] = start` — an empty
string is not written; the write touches only the first sentence. -/
def writeStart (b : Body) (v : String) : Except String Body :=
  if v == "" then Except.ok b
  else
    match b.sentences with
    | [] => Except.error "IndexError"
    | s :: rest => Except.ok { b with sentences := { s with timeStart := some v } :: rest }

/-- `if end: cur['sentences'][0]['timeEnd'] = end`. -/
def writeEnd (b : Body) (v : String) : Except String Body :=
  if v == "" then Except.ok b
  else
    match b.sentences with
    | [] => Except.error "IndexError"
    | s :: rest => Except.ok { b with sentences := { s with timeEnd := some v } :: rest }

/-- The per-body work of the comment pass: only `comment`-type bodies
are touched; start and end are computed from the neighbouring runs,
then written to the first sentence when non-empty. -/
def updateComment (prv nxt : Option Body) (cur : Body) : Except String Body :=
  if cur.type == "comment" then do
    let start ← computeStart prv nxt
    let e ← computeEnd prv nxt
    let b1 ← writeStart cur start
    writeEnd b1 e
  else Except.ok cur

/-- One window of the pass: `prv = prv[-1] if prv else None`,
`nxt = nxt[0] if nxt else None`, then every body of the current run is
processed.  Runs produced by `groupby` are never empty, so
`bind getLast?` / `bind head?` model `prv[-1]` / `nxt[0]` exactly. -/
def processWindow (w : Option (List Body) × List Body × Option (List Body)) :
    Except String (List Body) :=
  w.2.1.mapM (updateComment (w.1.bind List.getLast?) ((w.2.2).bind List.head?))

/-- The comment-timing propagation pass of `align_audio` over the
flattened body sequence of one speech.  The Python code mutates the
body dicts in place; since only `comment` bodies are written and only
non-`comment` bodies are read, the in-place pass equals this
functional one. -/
def commentPass (bodies : List Body) : Except String (List Body) := do
  let rs ← (pcnWindows (runsByType bodies)).mapM processWindow
  Except.ok rs.flatten

/-- The start value the pass selects: `timeStart` of the last sentence
of the previous body if a previous run exists, else `timeStart` of the
first sentence of the next body, else empty. -/
def startVal (prv nxt : Option Body) : String :=
  match prv with
  | some b => (b.sentences.getLastD default).timeStart.getD ""
  | none =>
    match nxt with
    | some b => (b.sentences.headD default).timeStart.getD ""
    | none => ""

/-- The end value the pass selects: `timeEnd` of the first sentence of
the next body if a next run exists, else `timeEnd` of the last
sentence of the previous body, else empty. -/
def endVal (prv nxt : Option Body) : String :=
  match nxt with
  | some b => (b.sentences.headD default).timeEnd.getD ""
  | none =>
    match prv with
    | some b => (b.sentences.getLastD default).timeEnd.getD ""
    | none => ""

/-! ### Concrete inputs used by the claim theorems -/

/-- Last sentence of the previous speech body, with distinct
`timeStart` and `timeEnd`. -/
def exSentPrev : Sentence := { text := "a", timeStart := some "10", timeEnd := some "20" }
/-- The untimed sentence of a comment body. -/
def exSentComment : Sentence := { text := "b" }
/-- First sentence of the next speech body. -/
def exSentNext : Sentence := { text := "c", timeStart := some "30", timeEnd := some "40" }
/-- A speech body (the run before a comment). -/
def exBodyPrev : Body :=
  { type := "speech",
    sentences := [{ text := "x", timeStart := some "1", timeEnd := some "2" }, exSentPrev] }
/-- A comment body between two speech bodies. -/
def exBodyComment : Body := { type := "comment", sentences := [exSentComment] }
/-- A speech body (the run after a comment). -/
def exBodyNext : Body := { type := "speech", sentences := [exSentNext] }

/-- A speech body with two sentences awaiting timing. -/
def exTimingBody : Body :=
  { type := "speech", sentences := [{ text := "hello" }, { text := "world" }] }
/-- Its enclosing content. -/
def exTimingContent : Content := { textBody := [exTimingBody] }
/-- A speech (`speechIndex` 1) with two sentences awaiting timing. -/
def exTimingSpeech : Speech := { speechIndex := 1, textContents := [exTimingContent] }
/-- Engine result covering only the first sentence identifier: the
second sentence's identifier `s1-0-0-1` has no returned fragment. -/
def exTimingFrags : List (String × Fragment) := [("s1-0-0-0", ⟨"0.0", "1.0"⟩)]

end Aligner

/-!
## Properties of the merger
-/

namespace Merger

/-- Every step emitted by the backtracking loop carries the
`max_score` passed in, which is never updated. -/
theorem backtrackFuel_score (s : Mat) (ms : Int) (mi pr : List IndexedEntry) :
    ∀ fuel i j, ∀ st ∈ backtrackFuel s ms mi pr fuel i j, st.score = ms := by
  intro fuel
  induction fuel with
  | zero => intro i j st hst; simp [backtrackFuel] at hst
  | succ fuel ih =>
    intro i j st hst
    rw [backtrackFuel] at hst
    by_cases h : 0 < i ∧ 0 < j
    · rw [if_pos h] at hst
      rcases List.mem_cons.mp hst with h1 | h1
      · subst h1; rfl
      · split at h1
        · exact ih _ _ st h1
        · split at h1
          · exact ih _ _ st h1
          · exact ih _ _ st h1
    · rw [if_neg h] at hst
      simp at hst

/-- Media indices of emitted steps stay within `[1, i]`. -/
theorem backtrackFuel_mem_idx (s : Mat) (ms : Int) (mi pr : List IndexedEntry) :
    ∀ fuel i j, ∀ st ∈ backtrackFuel s ms mi pr fuel i j,
      1 ≤ st.media_index ∧ st.media_index ≤ i := by
  intro fuel
  induction fuel with
  | zero => intro i j st hst; simp [backtrackFuel] at hst
  | succ fuel ih =>
    intro i j st hst
    rw [backtrackFuel] at hst
    by_cases h : 0 < i ∧ 0 < j
    · rw [if_pos h] at hst
      rcases List.mem_cons.mp hst with h1 | h1
      · subst h1
        exact ⟨h.1, Nat.le_refl i⟩
      · split at h1
        · have := ih _ _ st h1; omega
        · split at h1
          · have := ih _ _ st h1; omega
          · have := ih _ _ st h1; omega
    · rw [if_neg h] at hst
      simp at hst

/-- The first emitted step (if any) carries the loop's current `i`. -/
theorem backtrackFuel_head_idx (s : Mat) (ms : Int) (mi pr : List IndexedEntry)
    (fuel i j : Nat) :
    ∀ st ∈ (backtrackFuel s ms mi pr fuel i j).head?, st.media_index = i := by
  intro st hst
  cases fuel with
  | zero => simp [backtrackFuel] at hst
  | succ fuel =>
    rw [backtrackFuel] at hst
    split at hst
    · simp at hst
      subst hst
      rfl
    · simp at hst

/-- Media indices are non-increasing along the emitted path. -/
theorem backtrackFuel_chain (s : Mat) (ms : Int) (mi pr : List IndexedEntry) :
    ∀ fuel i j, List.Chain' (fun a b => b.media_index ≤ a.media_index)
      (backtrackFuel s ms mi pr fuel i j) := by
  intro fuel
  induction fuel with
  | zero => intro i j; simp [backtrackFuel]
  | succ fuel ih =>
    intro i j
    rw [backtrackFuel]
    by_cases h : 0 < i ∧ 0 < j
    · rw [if_pos h]
      rw [List.chain'_cons']
      constructor
      · intro b hb
        show b.media_index ≤ i
        split at hb
        · have := backtrackFuel_head_idx s ms mi pr fuel (i - 1) (j - 1) b hb; omega
        · split at hb
          · have := backtrackFuel_head_idx s ms mi pr fuel (i - 1) j b hb; omega
          · have := backtrackFuel_head_idx s ms mi pr fuel i (j - 1) b hb; omega
      · split
        · exact ih _ _
        · split
          · exact ih _ _
          · exact ih _ _
    · rw [if_neg h]
      exact List.chain'_nil

instance : IsTrans Step (fun a b => b.media_index ≤ a.media_index) :=
  ⟨fun _ _ _ hab hbc => le_trans hbc hab⟩

/-- The returned path is pairwise non-increasing in media index. -/
theorem path_pairwise (proceedings media : List Item) :
    List.Pairwise (fun a b => b.media_index ≤ a.media_index)
      (needleman_wunsch_align proceedings media) :=
  List.chain'_iff_pairwise.mp
    (backtrackFuel_chain
      (buildScores (simIdx (build_index media) (build_index proceedings))
        (build_index media).length (build_index proceedings).length)
      (buildScores (simIdx (build_index media) (build_index proceedings))
        (build_index media).length (build_index proceedings).length
        ((build_index media).length - 1) ((build_index proceedings).length - 1))
      (build_index media) (build_index proceedings)
      (((build_index media).length - 1) + ((build_index proceedings).length - 1))
      ((build_index media).length - 1) ((build_index proceedings).length - 1))

/-- Elements kept by the group's `takeWhile` share the head's media
index. -/
theorem mem_takeWhile_idx (x : Step) (xs : List Step) :
    ∀ y ∈ xs.takeWhile (fun z => z.media_index == x.media_index),
      y.media_index = x.media_index := by
  intro y hy
  have := List.mem_takeWhile_imp hy
  simpa using this

/-- On a non-increasing list, everything after the head's group has a
strictly smaller media index. -/
theorem mem_dropWhile_lt (x : Step) (xs : List Step)
    (hp : List.Pairwise (fun a b => b.media_index ≤ a.media_index) (x :: xs)) :
    ∀ y ∈ xs.dropWhile (fun z => z.media_index == x.media_index),
      y.media_index < x.media_index := by
  intro y hy
  have hsub := List.dropWhile_subset (l := xs) (fun z => z.media_index == x.media_index)
  have hyx : y.media_index ≤ x.media_index := (List.pairwise_cons.mp hp).1 y (hsub hy)
  cases hd : xs.dropWhile (fun z => z.media_index == x.media_index) with
  | nil => rw [hd] at hy; simp at hy
  | cons y0 rest =>
    have h0 := List.head?_dropWhile_not (fun z => z.media_index == x.media_index) xs
    rw [hd] at h0
    simp only [List.head?_cons] at h0
    have h0eq : y0.media_index ≠ x.media_index := by simpa using h0
    have h0le : y0.media_index ≤ x.media_index := by
      have hy0 : y0 ∈ xs := hsub (by rw [hd]; exact List.mem_cons_self _ _)
      exact (List.pairwise_cons.mp hp).1 y0 hy0
    rw [hd] at hy
    rcases List.mem_cons.mp hy with rfl | hy2
    · omega
    · have hpd : List.Pairwise (fun a b => b.media_index ≤ a.media_index) (y0 :: rest) := by
        rw [← hd]
        exact hp.sublist ((List.dropWhile_sublist _).trans (List.sublist_cons_self x xs))
      have : y.media_index ≤ y0.media_index := (List.pairwise_cons.mp hpd).1 y hy2
      omega

/-- On a non-increasing step list, each media index that occurs lands
in exactly one group of the `groupby`. -/
theorem groupStepsFuel_countP (idx : Nat) :
    ∀ fuel (l : List Step), l.length ≤ fuel →
      List.Pairwise (fun a b => b.media_index ≤ a.media_index) l →
      (groupStepsFuel fuel l).countP (fun g => g.any (fun st => st.media_index == idx)) =
        if idx ∈ l.map Step.media_index then 1 else 0 := by
  intro fuel
  induction fuel with
  | zero =>
    intro l hl hp
    have hnil : l = [] := List.length_eq_zero.mp (by omega)
    subst hnil
    simp [groupStepsFuel]
  | succ fuel ih =>
    intro l hl hp
    cases l with
    | nil => simp [groupStepsFuel]
    | cons x xs =>
      have hlen : (xs.dropWhile (fun z => z.media_index == x.media_index)).length ≤ fuel := by
        have := (List.dropWhile_sublist
          (fun z : Step => z.media_index == x.media_index) (l := xs)).length_le
        simp only [List.length_cons] at hl
        omega
      have hpd : List.Pairwise (fun a b => b.media_index ≤ a.media_index)
          (xs.dropWhile (fun z => z.media_index == x.media_index)) :=
        hp.sublist ((List.dropWhile_sublist _).trans (List.sublist_cons_self x xs))
      rw [groupStepsFuel, List.countP_cons, ih _ hlen hpd]
      by_cases hx : x.media_index = idx
      · have h2 : idx ∉ (xs.dropWhile (fun z => z.media_index == x.media_index)).map
            Step.media_index := by
          intro hmem
          rcases List.mem_map.mp hmem with ⟨y, hy, hyidx⟩
          have := mem_dropWhile_lt x xs hp y hy
          omega
        have h3 : idx ∈ (x :: xs).map Step.media_index := by
          simp [hx]
        rw [if_neg h2, if_pos h3]
        simp [hx]
      · have h1 : ((x :: xs.takeWhile (fun z => z.media_index == x.media_index)).any
            (fun st => st.media_index == idx)) = false := by
          simp only [List.any_eq_false]
          intro y hy
          rcases List.mem_cons.mp hy with rfl | hy2
          · exact fun hc => hx (by simpa using hc)
          · have h4 := mem_takeWhile_idx x xs y hy2
            exact fun hc => hx (h4.symm.trans (by simpa using hc))
        rw [h1]
        have hmem_iff : (idx ∈ (x :: xs).map Step.media_index) ↔
            (idx ∈ (xs.dropWhile (fun z => z.media_index == x.media_index)).map
              Step.media_index) := by
          constructor
          · intro hmem
            rcases List.mem_map.mp hmem with ⟨y, hy, hyidx⟩
            rcases List.mem_cons.mp hy with rfl | hy2
            · exact absurd hyidx hx
            · have hy3 : y ∈ xs.takeWhile (fun z => z.media_index == x.media_index) ++
                  xs.dropWhile (fun z => z.media_index == x.media_index) := by
                rw [List.takeWhile_append_dropWhile]
                exact hy2
              rcases List.mem_append.mp hy3 with h | h
              · have := mem_takeWhile_idx x xs y h
                exact absurd (this ▸ hyidx) hx
              · exact List.mem_map.mpr ⟨y, h, hyidx⟩
          · intro hmem
            rcases List.mem_map.mp hmem with ⟨y, hy, hyidx⟩
            have hy2 : y ∈ xs := List.dropWhile_subset _ hy
            exact List.mem_map.mpr ⟨y, List.mem_cons_of_mem x hy2, hyidx⟩
        by_cases hm : idx ∈ (x :: xs).map Step.media_index
        · rw [if_pos hm, if_pos (hmem_iff.mp hm)]
          simp
        · rw [if_neg hm, if_neg (fun hc => hm (hmem_iff.mpr hc))]
          simp

end Merger

namespace Merger

/-- The score recurrence in closed recursive form, used to
characterize the imperative matrix fill. -/
def nwRec (sim : Nat → Nat → Int) (M P : Nat) : Nat → Nat → Int
  | 0, j => sim 0 j
  | i, 0 => sim i 0
  | (i + 1), (j + 1) =>
    if i + 1 < M ∧ j + 1 < P then
      max (nwRec sim M P i j + sim (i + 1) (j + 1))
        (max (nwRec sim M P i (j + 1) + split_penalty)
          (nwRec sim M P (i + 1) j + merge_penalty))
    else sim (i + 1) (j + 1)
termination_by i j => i + j

/-- Row 0 keeps its raw similarity value. -/
theorem nwRec_zero_left (sim : Nat → Nat → Int) (M P j : Nat) :
    nwRec sim M P 0 j = sim 0 j := by
  cases j <;> simp [nwRec]

/-- Column 0 keeps its raw similarity value. -/
theorem nwRec_zero_right (sim : Nat → Nat → Int) (M P i : Nat) :
    nwRec sim M P i 0 = sim i 0 := by
  cases i <;> simp [nwRec]

/-- Cells beyond the proceedings length are never filled. -/
theorem nwRec_out_right (sim : Nat → Nat → Int) (M P i j : Nat) (h : P ≤ j) :
    nwRec sim M P i j = sim i j := by
  cases i with
  | zero => exact nwRec_zero_left sim M P j
  | succ i =>
    cases j with
    | zero => exact nwRec_zero_right sim M P _
    | succ j =>
      rw [nwRec, if_neg]
      intro hcon
      omega

/-- The defining recurrence of `nwRec` on interior cells. -/
theorem nwRec_succ (sim : Nat → Nat → Int) (M P i j : Nat)
    (hi : i + 1 < M) (hj : j + 1 < P) :
    nwRec sim M P (i + 1) (j + 1) =
      max (nwRec sim M P i j + sim (i + 1) (j + 1))
        (max (nwRec sim M P i (j + 1) + split_penalty)
          (nwRec sim M P (i + 1) j + merge_penalty)) := by
  rw [nwRec, if_pos ⟨hi, hj⟩]

/-- Matrix state after the outer loop has processed all rows below `r`. -/
def rowsTarget (sim : Nat → Nat → Int) (M P r : Nat) : Mat :=
  fun a b => if a < r then nwRec sim M P a b else sim a b

/-- Matrix state inside row `r`'s inner loop, columns below `c` done. -/
def rowTarget (sim : Nat → Nat → Int) (M P r c : Nat) : Mat :=
  fun a b => if a < r ∨ (a = r ∧ b < c) then nwRec sim M P a b else sim a b

/-- Evaluation of `rowTarget` on a processed cell. -/
theorem rowTarget_in (sim : Nat → Nat → Int) (M P r c a b : Nat)
    (h : a < r ∨ (a = r ∧ b < c)) :
    rowTarget sim M P r c a b = nwRec sim M P a b := by
  rw [rowTarget]
  exact if_pos h

/-- Evaluation of `rowTarget` on an unprocessed cell. -/
theorem rowTarget_out (sim : Nat → Nat → Int) (M P r c a b : Nat)
    (h : ¬(a < r ∨ (a = r ∧ b < c))) :
    rowTarget sim M P r c a b = sim a b := by
  rw [rowTarget]
  exact if_neg h

/-- Evaluation of `rowsTarget` on a processed row. -/
theorem rowsTarget_in (sim : Nat → Nat → Int) (M P r a b : Nat) (h : a < r) :
    rowsTarget sim M P r a b = nwRec sim M P a b := by
  rw [rowsTarget]
  exact if_pos h

/-- Evaluation of `rowsTarget` on an unprocessed row. -/
theorem rowsTarget_out (sim : Nat → Nat → Int) (M P r a b : Nat) (h : ¬(a < r)) :
    rowsTarget sim M P r a b = sim a b := by
  rw [rowsTarget]
  exact if_neg h

/-- The update value written to a cell equals the closed recurrence
there, once everything the update reads is already final. -/
theorem cellValue_target (sim : Nat → Nat → Int) (M P r c : Nat)
    (hr1 : 1 ≤ r) (hrM : r < M) (hc1 : 1 ≤ c) (hcP : c < P)
    (s : Mat) (hs : ∀ a b, s a b = rowTarget sim M P r c a b) :
    cellValue sim s r c = nwRec sim M P r c := by
  obtain ⟨r2, rfl⟩ : ∃ r2, r = r2 + 1 := ⟨r - 1, by omega⟩
  obtain ⟨c2, rfl⟩ : ∃ c2, c = c2 + 1 := ⟨c - 1, by omega⟩
  rw [nwRec_succ sim M P r2 c2 hrM hcP, cellValue]
  simp only [Nat.add_sub_cancel]
  rw [hs r2 c2, rowTarget_in sim M P _ _ _ _ (by omega)]
  rw [hs r2 (c2 + 1), rowTarget_in sim M P _ _ _ _ (by omega)]
  rw [hs (r2 + 1) c2, rowTarget_in sim M P _ _ _ _ (by omega)]

/-- Invariant of the inner loop of the fill. -/
theorem fillRowFrom_target (sim : Nat → Nat → Int) (M P r : Nat)
    (hr1 : 1 ≤ r) (hrM : r < M) :
    ∀ n c, 1 ≤ c → c + n ≤ P → ∀ s : Mat,
      (∀ a b, s a b = rowTarget sim M P r c a b) →
      ∀ a b, fillRowFrom sim r s (List.range' c n) a b =
        rowTarget sim M P r (c + n) a b := by
  intro n
  induction n with
  | zero =>
    intro c hc1 hcn s hs a b
    simpa [fillRowFrom] using hs a b
  | succ n ih =>
    intro c hc1 hcn s hs a b
    rw [List.range'_succ, fillRowFrom, List.foldl_cons]
    have hs2 : ∀ a b, (mset s r c (cellValue sim s r c)) a b =
        rowTarget sim M P r (c + 1) a b := by
      intro a b
      rw [mset]
      by_cases hab : a = r ∧ b = c
      · rw [if_pos hab]
        rw [cellValue_target sim M P r c hr1 hrM hc1 (by omega) s hs]
        rw [rowTarget_in sim M P r (c + 1) a b (by omega)]
        rw [hab.1, hab.2]
      · rw [if_neg hab, hs a b]
        by_cases h2 : a < r ∨ (a = r ∧ b < c)
        · rw [rowTarget_in sim M P r c a b h2,
            rowTarget_in sim M P r (c + 1) a b (by omega)]
        · rw [rowTarget_out sim M P r c a b h2,
            rowTarget_out sim M P r (c + 1) a b (by omega)]
    have h3 := ih (c + 1) (by omega) (by omega) _ hs2 a b
    rw [show c + (n + 1) = (c + 1) + n from by omega]
    exact h3

/-- Invariant of the outer loop of the fill. -/
theorem fillRowsFrom_target (sim : Nat → Nat → Int) (M P : Nat) (hP : 1 ≤ P) :
    ∀ k r, 1 ≤ r → r + k ≤ M → ∀ s : Mat,
      (∀ a b, s a b = rowsTarget sim M P r a b) →
      ∀ a b, fillRowsFrom sim P s (List.range' r k) a b =
        rowsTarget sim M P (r + k) a b := by
  intro k
  induction k with
  | zero =>
    intro r hr1 hrk s hs a b
    simpa [fillRowsFrom] using hs a b
  | succ k ih =>
    intro r hr1 hrk s hs a b
    rw [List.range'_succ, fillRowsFrom, List.foldl_cons]
    have hb1 : ∀ a b, s a b = rowTarget sim M P r 1 a b := by
      intro a b
      rw [hs a b]
      by_cases h1 : a < r
      · rw [rowsTarget_in sim M P r a b h1, rowTarget_in sim M P r 1 a b (Or.inl h1)]
      · rw [rowsTarget_out sim M P r a b h1]
        by_cases h2 : a = r ∧ b < 1
        · rw [rowTarget_in sim M P r 1 a b (Or.inr h2)]
          rw [show b = 0 from by omega, nwRec_zero_right]
        · rw [rowTarget_out sim M P r 1 a b (by omega)]
    have hrow := fillRowFrom_target sim M P r hr1 (by omega) (P - 1) 1
      (by omega) (by omega) s hb1
    have hb2 : ∀ a b, fillRow sim P r s a b = rowsTarget sim M P (r + 1) a b := by
      intro a b
      rw [fillRow]
      rw [hrow a b]
      by_cases h1 : a < r
      · rw [rowTarget_in sim M P r (1 + (P - 1)) a b (Or.inl h1),
          rowsTarget_in sim M P (r + 1) a b (by omega)]
      · by_cases h2 : a = r ∧ b < 1 + (P - 1)
        · rw [rowTarget_in sim M P r (1 + (P - 1)) a b (Or.inr h2),
            rowsTarget_in sim M P (r + 1) a b (by omega)]
        · rw [rowTarget_out sim M P r (1 + (P - 1)) a b (by omega)]
          by_cases h3 : a < r + 1
          · rw [rowsTarget_in sim M P (r + 1) a b h3]
            rw [nwRec_out_right sim M P a b (by omega)]
          · rw [rowsTarget_out sim M P (r + 1) a b h3]
    have h4 := ih (r + 1) (by omega) (by omega) _ hb2 a b
    rw [show r + (k + 1) = (r + 1) + k from by omega]
    exact h4

/-- The filled matrix equals the closed recurrence everywhere. -/
theorem buildScores_eq_nwRec (sim : Nat → Nat → Int) (M P : Nat)
    (hM : 1 ≤ M) (hP : 1 ≤ P) :
    ∀ a b, buildScores sim M P a b = rowsTarget sim M P M a b := by
  have h0 : ∀ a b, (fun i j => sim i j : Mat) a b = rowsTarget sim M P 1 a b := by
    intro a b
    by_cases h : a < 1
    · rw [rowsTarget_in sim M P 1 a b h, show a = 0 from by omega, nwRec_zero_left]
    · rw [rowsTarget_out sim M P 1 a b h]
  have h1 := fillRowsFrom_target sim M P hP (M - 1) 1 (by omega) (by omega) _ h0
  intro a b
  rw [buildScores]
  have h2 := h1 a b
  rwa [show 1 + (M - 1) = M from by omega] at h2

/-- `build_index` keeps the list length. -/
theorem build_index_length (l : List Item) : (build_index l).length = l.length := by
  simp [build_index]

/-- The score matrix of the aligner, characterized cell by cell. -/
theorem scores_eq_nwRec (proceedings media : List Item)
    (hp : proceedings ≠ []) (hm : media ≠ []) :
    ∀ a b, scores proceedings media a b =
      rowsTarget (simIdx (build_index media) (build_index proceedings))
        (build_index media).length (build_index proceedings).length
        (build_index media).length a b := by
  apply buildScores_eq_nwRec
  · rw [build_index_length]
    exact List.length_pos.mpr hm
  · rw [build_index_length]
    exact List.length_pos.mpr hp

end Merger

namespace Merger

/-- C1: the claim "for every pair of non-empty input lists, every
media index in `[0, M)` appears in exactly one group after
orchestration" is false: already for singleton lists the path is empty
and media index 0 lands in no group. -/
theorem c1_coverage_counterexample :
    exProcB ≠ [] ∧ exMediaB ≠ [] ∧ ¬ coversAllMedia exProcB exMediaB := by
  refine ⟨by decide, by decide, by decide⟩

/-- C1 (amended): media index 0 never occurs in the alignment path —
the first media item is always dropped — and a media index occurring
in the path appears in exactly one group, an index not occurring in
none. -/
theorem c1_coverage_amended (proceedings media : List Item) (idx : Nat) :
    0 ∉ (needleman_wunsch_align proceedings media).map Step.media_index ∧
    groupCountFor proceedings media idx =
      if idx ∈ (needleman_wunsch_align proceedings media).map Step.media_index
        then 1 else 0 := by
  constructor
  · intro hmem
    rcases List.mem_map.mp hmem with ⟨st, hst, hidx⟩
    have h1 := backtrackFuel_mem_idx (scores proceedings media)
      (scores proceedings media ((build_index media).length - 1)
        ((build_index proceedings).length - 1))
      (build_index media) (build_index proceedings)
      (((build_index media).length - 1) + ((build_index proceedings).length - 1))
      ((build_index media).length - 1) ((build_index proceedings).length - 1) st hst
    omega
  · exact groupStepsFuel_countP idx _ _ (Nat.le_refl _)
      (path_pairwise proceedings media)

/-- C1 witness: concrete instance of the amended claim. -/
theorem c1_coverage_amended_witness :
    0 ∉ (needleman_wunsch_align exProcA exMediaA).map Step.media_index ∧
    groupCountFor exProcA exMediaA 2 =
      if 2 ∈ (needleman_wunsch_align exProcA exMediaA).map Step.media_index
        then 1 else 0 :=
  c1_coverage_amended exProcA exMediaA 2

/-- C3: for non-empty inputs, row 0 and column 0 of the score matrix
hold the raw similarity of the corresponding item pair, and every
interior cell satisfies
`S[i][j] = max(S[i-1][j-1] + sim(i,j), S[i-1][j] + split_penalty,
S[i][j-1] + merge_penalty)` with both penalties equal to -1. -/
theorem c3_score_matrix_recurrence (proceedings media : List Item)
    (hp : proceedings ≠ []) (hm : media ≠ []) :
    (∀ j, j < proceedings.length →
      scores proceedings media 0 j =
        simIdx (build_index media) (build_index proceedings) 0 j) ∧
    (∀ i, i < media.length →
      scores proceedings media i 0 =
        simIdx (build_index media) (build_index proceedings) i 0) ∧
    split_penalty = -1 ∧ merge_penalty = -1 ∧
    (∀ i j, 1 ≤ i → i < media.length → 1 ≤ j → j < proceedings.length →
      scores proceedings media i j =
        max (scores proceedings media (i - 1) (j - 1) +
            simIdx (build_index media) (build_index proceedings) i j)
          (max (scores proceedings media (i - 1) j + split_penalty)
            (scores proceedings media i (j - 1) + merge_penalty))) := by
  have key := scores_eq_nwRec proceedings media hp hm
  have hMl : (build_index media).length = media.length := build_index_length media
  have hPl : (build_index proceedings).length = proceedings.length :=
    build_index_length proceedings
  have hM1 : 1 ≤ (build_index media).length := by
    rw [hMl]
    exact List.length_pos.mpr hm
  refine ⟨?_, ?_, rfl, rfl, ?_⟩
  · intro j hj
    rw [key 0 j, rowsTarget_in _ _ _ _ _ _ (by omega), nwRec_zero_left]
  · intro i hi
    rw [key i 0, rowsTarget_in _ _ _ _ _ _ (by omega), nwRec_zero_right]
  · intro i j hi1 hiM hj1 hjP
    rw [← hMl] at hiM
    rw [← hPl] at hjP
    obtain ⟨i2, rfl⟩ : ∃ i2, i = i2 + 1 := ⟨i - 1, by omega⟩
    obtain ⟨j2, rfl⟩ : ∃ j2, j = j2 + 1 := ⟨j - 1, by omega⟩
    rw [key (i2 + 1) (j2 + 1), rowsTarget_in _ _ _ _ _ _ (by omega)]
    rw [nwRec_succ _ _ _ _ _ hiM hjP]
    simp only [Nat.add_sub_cancel]
    rw [key i2 j2, rowsTarget_in _ _ _ _ _ _ (by omega)]
    rw [key i2 (j2 + 1), rowsTarget_in _ _ _ _ _ _ (by omega)]
    rw [key (i2 + 1) j2, rowsTarget_in _ _ _ _ _ _ (by omega)]

/-- C3 witness: the border and the recurrence checked on a concrete
3 x 3 instance. -/
theorem c3_score_matrix_recurrence_witness :
    exProcC ≠ [] ∧ exMediaC ≠ [] ∧
    scores exProcC exMediaC 0 1 =
      simIdx (build_index exMediaC) (build_index exProcC) 0 1 ∧
    scores exProcC exMediaC 1 1 =
      max (scores exProcC exMediaC 0 0 +
          simIdx (build_index exMediaC) (build_index exProcC) 1 1)
        (max (scores exProcC exMediaC 0 1 + split_penalty)
          (scores exProcC exMediaC 1 0 + merge_penalty)) := by
  have h := c3_score_matrix_recurrence exProcC exMediaC (by decide) (by decide)
  exact ⟨by decide, by decide, h.1 1 (by decide),
    h.2.2.2.2 1 1 (by decide) (by decide) (by decide) (by decide)⟩

/-- C6: the claim that the merged people list is an insertion-ordered,
label-keyed dedup over `media.people + proceeding.people` is false:
the code concatenates only the proceedings' people, keeping duplicates
and dropping the media item's people. -/
theorem c6_people_merge_counterexample :
    (merge_item exMediaItem [exProcItem]).people = [bob, bob] ∧
    alice ∈ exMediaItem.people ∧
    alice ∉ (merge_item exMediaItem [exProcItem]).people ∧
    remove_accents bob.label = remove_accents bob.label ∧
    mergePeopleSpecWords exMediaItem [exProcItem] = [alice, bob] ∧
    (merge_item exMediaItem [exProcItem]).people ≠
      mergePeopleSpecWords exMediaItem [exProcItem] := by
  refine ⟨by decide, by decide, by decide, rfl, by decide, by decide⟩

/-- C6 (amended): the merged people list is the plain concatenation of
the matched proceedings' people lists, in order — no deduplication,
and the media item's own people are not included. -/
theorem c6_people_merge_amended (mediaitem : Item) (proceedingitems : List Item) :
    (merge_item mediaitem proceedingitems).people =
      (proceedingitems.map (fun p => p.people)).flatten := rfl

/-- C7: the claim that a confidence score in {1.0, 0.5} is stored as
`debug.confidence` is false: `merge_item` never writes a confidence
value. -/
theorem c7_confidence_counterexample :
    (merge_item exMediaItem [exProcItem]).debug.lookup "confidence" = none ∧
    (merge_item exMediaItem [exProcItem]).debug = [] := by
  refine ⟨by decide, by decide⟩

/-- C7 (amended): `merge_item` stores no confidence at all — the debug
bag of the merged item is the media item's debug bag, unchanged. -/
theorem c7_confidence_amended (mediaitem : Item) (proceedingitems : List Item) :
    (merge_item mediaitem proceedingitems).debug = mediaitem.debug := rfl

/-- C8: the claim that the steps are reversed to ascending order is
false: the code returns the raw backtracking order, media indices
descending. -/
theorem c8_path_order_counterexample :
    (needleman_wunsch_align exProcA exMediaA).map Step.media_index = [2, 1] ∧
    ¬ List.Chain' (fun a b => a ≤ b)
      ((needleman_wunsch_align exProcA exMediaA).map Step.media_index) := by
  constructor
  · decide
  · intro hc
    rw [show (needleman_wunsch_align exProcA exMediaA).map Step.media_index = [2, 1]
      from by decide] at hc
    simp [List.chain'_cons] at hc

/-- C8 (amended): the path is returned unreversed, so media indices
are non-increasing from the first step to the last. -/
theorem c8_path_order_amended (proceedings media : List Item) :
    List.Chain' (fun a b => b ≤ a)
      ((needleman_wunsch_align proceedings media).map Step.media_index) :=
  (List.chain'_map Step.media_index).mpr
    (backtrackFuel_chain
      (buildScores (simIdx (build_index media) (build_index proceedings))
        (build_index media).length (build_index proceedings).length)
      (buildScores (simIdx (build_index media) (build_index proceedings))
        (build_index media).length (build_index proceedings).length
        ((build_index media).length - 1) ((build_index proceedings).length - 1))
      (build_index media) (build_index proceedings)
      (((build_index media).length - 1) + ((build_index proceedings).length - 1))
      ((build_index media).length - 1) ((build_index proceedings).length - 1))

/-- C9: the claim that string comparison strips leading/trailing
whitespace before the equality check is false: the code compares
speaker and title strings without stripping. -/
theorem c9_similarity_counterexample :
    similarity exEntrySpace exEntryNoSpace = 2 ∧
    similaritySpecWords exEntrySpace exEntryNoSpace = 6 ∧
    similarity exEntrySpace exEntryNoSpace ≠
      similaritySpecWords exEntrySpace exEntryNoSpace := by
  refine ⟨by decide, by decide, by decide⟩

/-- C9 (amended): `similarity(a, b) = 4 * (speaker_a == speaker_b) +
2 * (title_a == title_b)` where both comparisons are plain string
equality with no whitespace stripping and no case-folding. -/
theorem c9_similarity_amended (m p : IndexedEntry) :
    similarity m p = 4 * (if m.speaker = p.speaker then 1 else 0)
      + 2 * (if m.title = p.title then 1 else 0) := by
  simp only [similarity, boolInt, speaker_weight, title_weight, beq_iff_eq]

/-- C10: every step of the returned path carries the same score value,
the bottom-right score-matrix entry `S[M-1][P-1]`, computed once
before backtracking and never updated. -/
theorem c10_constant_path_score (proceedings media : List Item)
    (hp : proceedings ≠ []) (hm : media ≠ []) :
    ∀ st ∈ needleman_wunsch_align proceedings media,
      st.score = scores proceedings media (media.length - 1) (proceedings.length - 1) := by
  intro st hst
  have hb := backtrackFuel_score (scores proceedings media)
    (scores proceedings media ((build_index media).length - 1)
      ((build_index proceedings).length - 1))
    (build_index media) (build_index proceedings)
    (((build_index media).length - 1) + ((build_index proceedings).length - 1))
    ((build_index media).length - 1) ((build_index proceedings).length - 1) st hst
  simpa [build_index] using hb

/-- C10 witness: the first step of a concrete path carries the
bottom-right matrix entry. -/
theorem c10_constant_path_score_witness :
    exStepC.score = scores exProcC exMediaC (exMediaC.length - 1) (exProcC.length - 1) :=
  c10_constant_path_score exProcC exMediaC (by decide) (by decide) exStepC (by decide)

end Merger

/-!
## Properties of the aligner
-/

namespace Aligner

/-- `sentences[-1]` succeeds on a non-empty list and yields its last
element. -/
theorem lastSentenceE_of_ne (b : Body) (h : b.sentences ≠ []) :
    lastSentenceE b = Except.ok (b.sentences.getLastD default) := by
  rw [lastSentenceE, List.getLastD_eq_getLast?]
  cases hbs : b.sentences.getLast? with
  | none => exact absurd (List.getLast?_eq_none_iff.mp hbs) h
  | some x => rfl

/-- `sentences[0]` succeeds on a non-empty list and yields its head. -/
theorem firstSentenceE_of_ne (b : Body) (h : b.sentences ≠ []) :
    firstSentenceE b = Except.ok (b.sentences.headD default) := by
  cases hbs : b.sentences with
  | nil => exact absurd hbs h
  | cons x xs => simp [firstSentenceE, hbs]

/-- `computeStart` succeeds and selects `startVal` whenever the
neighbouring bodies have sentences. -/
theorem computeStart_ok (prv nxt : Option Body)
    (hp : ∀ b, prv = some b → b.sentences ≠ [])
    (hn : ∀ b, nxt = some b → b.sentences ≠ []) :
    computeStart prv nxt = Except.ok (startVal prv nxt) := by
  cases prv with
  | some b =>
    simp [computeStart, startVal, lastSentenceE_of_ne b (hp b rfl)]
    rfl
  | none =>
    cases nxt with
    | some b =>
      simp [computeStart, startVal, firstSentenceE_of_ne b (hn b rfl)]
      rfl
    | none => rfl

/-- `computeEnd` succeeds and selects `endVal` whenever the
neighbouring bodies have sentences. -/
theorem computeEnd_ok (prv nxt : Option Body)
    (hp : ∀ b, prv = some b → b.sentences ≠ [])
    (hn : ∀ b, nxt = some b → b.sentences ≠ []) :
    computeEnd prv nxt = Except.ok (endVal prv nxt) := by
  cases nxt with
  | some b =>
    simp [computeEnd, endVal, firstSentenceE_of_ne b (hn b rfl)]
    rfl
  | none =>
    cases prv with
    | some b =>
      simp [computeEnd, endVal, lastSentenceE_of_ne b (hp b rfl)]
      rfl
    | none => rfl

/-- The start write touches only the first sentence and skips an empty
value. -/
theorem writeStart_cons (b : Body) (s0 : Sentence) (rest : List Sentence)
    (h : b.sentences = s0 :: rest) (v : String) :
    writeStart b v = Except.ok { b with sentences :=
      { s0 with timeStart := if v = "" then s0.timeStart else some v } :: rest } := by
  rw [writeStart]
  by_cases hv : v = ""
  · rw [if_pos (by simpa using hv), if_pos hv]
    show Except.ok b = _
    rw [show ({ s0 with timeStart := s0.timeStart } : Sentence) = s0 from rfl, ← h]
  · rw [if_neg (by simpa using hv), if_neg hv, h]

/-- The end write touches only the first sentence and skips an empty
value. -/
theorem writeEnd_cons (b : Body) (s0 : Sentence) (rest : List Sentence)
    (h : b.sentences = s0 :: rest) (v : String) :
    writeEnd b v = Except.ok { b with sentences :=
      { s0 with timeEnd := if v = "" then s0.timeEnd else some v } :: rest } := by
  rw [writeEnd]
  by_cases hv : v = ""
  · rw [if_pos (by simpa using hv), if_pos hv]
    show Except.ok b = _
    rw [show ({ s0 with timeEnd := s0.timeEnd } : Sentence) = s0 from rfl, ← h]
  · rw [if_neg (by simpa using hv), if_neg hv, h]

/-- A comment body is updated by writing `startVal` / `endVal` (when
non-empty) to its first sentence, leaving the remaining sentences
untouched. -/
theorem updateComment_comment (prvB nxtB : Option Body) (cur : Body)
    (hty : cur.type = "comment")
    (s0 : Sentence) (rest : List Sentence) (hcur : cur.sentences = s0 :: rest)
    (hprvOk : ∀ b, prvB = some b → b.sentences ≠ [])
    (hnxtOk : ∀ b, nxtB = some b → b.sentences ≠ []) :
    updateComment prvB nxtB cur = Except.ok { cur with sentences :=
      { s0 with
        timeStart := if startVal prvB nxtB = "" then s0.timeStart
          else some (startVal prvB nxtB),
        timeEnd := if endVal prvB nxtB = "" then s0.timeEnd
          else some (endVal prvB nxtB) } :: rest } := by
  rw [updateComment, if_pos (by simpa using hty)]
  rw [computeStart_ok prvB nxtB hprvOk hnxtOk]
  show (do
    let e ← computeEnd prvB nxtB
    let b1 ← writeStart cur (startVal prvB nxtB)
    writeEnd b1 e) = _
  rw [computeEnd_ok prvB nxtB hprvOk hnxtOk]
  show (do
    let b1 ← writeStart cur (startVal prvB nxtB)
    writeEnd b1 (endVal prvB nxtB)) = _
  rw [writeStart_cons cur s0 rest hcur]
  show writeEnd { cur with sentences :=
      { s0 with timeStart := if startVal prvB nxtB = "" then s0.timeStart
          else some (startVal prvB nxtB) } :: rest } (endVal prvB nxtB) = _
  rw [writeEnd_cons _ _ rest rfl]

/-- C2: the write-back of timings raises on the first identifier
missing from the engine's fragments instead of skipping it — the
identifier `s1-0-0-1` is generated for the speech, has no fragment,
and the injection returns the `KeyError` instead of a partially timed
speech. -/
theorem c2_missing_ident_raises :
    "s1-0-0-1" ∈ speechSentenceIdents exTimingSpeech ∧
    exTimingFrags.lookup "s1-0-0-1" = none ∧
    exTimingFrags.lookup "s1-0-0-0" ≠ none ∧
    injectTimings exTimingFrags exTimingSpeech = Except.error "s1-0-0-1" := by
  refine ⟨by decide, by decide, by decide, rfl⟩

/-- C4: in the comment-timing pass, for a comment body of a window's
current run, the start written is the `timeStart` of the last sentence
of the previous run when one exists, else of the first sentence of the
next run; the end written is the `timeEnd` of the first sentence of
the next run when one exists, else of the last sentence of the
previous run; only the comment's first sentence receives the values
and empty strings are not written. -/
theorem c4_comment_timing (bodies : List Body)
    (w : Option (List Body) × List Body × Option (List Body))
    (hw : w ∈ pcnWindows (runsByType bodies))
    (cur : Body) (hc : cur ∈ w.2.1) (hty : cur.type = "comment")
    (prvB nxtB : Option Body)
    (hprv : prvB = w.1.bind List.getLast?)
    (hnxt : nxtB = (w.2.2).bind List.head?)
    (hneighbor : prvB.isSome ∨ nxtB.isSome)
    (s0 : Sentence) (rest : List Sentence) (hcur : cur.sentences = s0 :: rest)
    (hprvOk : ∀ b, prvB = some b → b.sentences ≠ [])
    (hnxtOk : ∀ b, nxtB = some b → b.sentences ≠ []) :
    updateComment prvB nxtB cur = Except.ok { cur with sentences :=
      { s0 with
        timeStart := if startVal prvB nxtB = "" then s0.timeStart
          else some (startVal prvB nxtB),
        timeEnd := if endVal prvB nxtB = "" then s0.timeEnd
          else some (endVal prvB nxtB) } :: rest } :=
  updateComment_comment prvB nxtB cur hty s0 rest hcur hprvOk hnxtOk

/-- C4 witness: the middle window of a concrete three-run session. -/
theorem c4_comment_timing_witness :
    updateComment (some exBodyPrev) (some exBodyNext) exBodyComment =
      Except.ok
        { type := "comment"
          sentences := [{ text := "b", timeStart := some "10", timeEnd := some "40" }] } :=
  c4_comment_timing [exBodyPrev, exBodyComment, exBodyNext]
    (some [exBodyPrev], [exBodyComment], some [exBodyNext]) (by decide)
    exBodyComment (by decide) rfl
    (some exBodyPrev) (some exBodyNext) rfl rfl (Or.inl rfl)
    exSentComment [] rfl
    (by intro b hb; cases hb; decide)
    (by intro b hb; cases hb; decide)

/-- C5: the claim that a comment between two speech runs receives
`timeStart = T1` (the previous run's last `timeEnd`) and
`timeEnd = T2` (the next run's first `timeStart`) is false: the code
copies the previous run's last `timeStart` and the next run's first
`timeEnd` instead. -/
theorem c5_comment_bounds_counterexample :
    commentPass [exBodyPrev, exBodyComment, exBodyNext] =
      Except.ok [exBodyPrev,
        { type := "comment",
          sentences := [{ text := "b", timeStart := some "10", timeEnd := some "40" }] },
        exBodyNext] ∧
    (exBodyPrev.sentences.getLastD default).timeEnd = some "20" ∧
    (exBodyNext.sentences.headD default).timeStart = some "30" ∧
    ({ text := "b", timeStart := some "10", timeEnd := some "40" } : Sentence).timeStart
      ≠ some "20" ∧
    ({ text := "b", timeStart := some "10", timeEnd := some "40" } : Sentence).timeEnd
      ≠ some "30" := by
  refine ⟨rfl, rfl, rfl, by decide, by decide⟩

/-- C5 (amended): a comment between two speech runs receives
`timeStart` = the previous run's last sentence's `timeStart` and
`timeEnd` = the next run's first sentence's `timeEnd`. -/
theorem c5_comment_bounds_amended (b1 b2 b3 : Body)
    (h1 : b1.type = "speech") (h2 : b2.type = "comment") (h3 : b3.type = "speech")
    (p1 : Sentence) (hp1 : b1.sentences.getLast? = some p1)
    (n1 : Sentence) (hn1 : b3.sentences.head? = some n1)
    (c0 : Sentence) (crest : List Sentence) (hc : b2.sentences = c0 :: crest)
    (ts te : String)
    (hts : p1.timeStart = some ts) (hts0 : ts ≠ "")
    (hte : n1.timeEnd = some te) (hte0 : te ≠ "") :
    commentPass [b1, b2, b3] =
      Except.ok [b1,
        { b2 with sentences :=
          { c0 with timeStart := some ts, timeEnd := some te } :: crest },
        b3] := by
  have hprvOk1 : b1.sentences ≠ [] := by
    intro hnil
    rw [hnil] at hp1
    simp at hp1
  have hnxtOk1 : b3.sentences ≠ [] := by
    intro hnil
    rw [hnil] at hn1
    simp at hn1
  have hup : updateComment (some b1) (some b3) b2 =
      Except.ok { b2 with sentences :=
        { c0 with timeStart := some ts, timeEnd := some te } :: crest } := by
    rw [updateComment_comment (some b1) (some b3) b2 h2 c0 crest hc
      (by intro b hb; cases hb; exact hprvOk1)
      (by intro b hb; cases hb; exact hnxtOk1)]
    have hsv : startVal (some b1) (some b3) = ts := by
      simp [startVal, List.getLastD_eq_getLast?, hp1, hts]
    have hev : endVal (some b1) (some b3) = te := by
      simp [endVal, List.headD_eq_head?_getD, hn1, hte]
    rw [hsv, hev, if_neg hts0, if_neg hte0]
  have hub1 : updateComment none (some b2) b1 = Except.ok b1 := by
    rw [updateComment, if_neg (by simp [h1])]
  have hub3 : updateComment (some b2) none b3 = Except.ok b3 := by
    rw [updateComment, if_neg (by simp [h3])]
  have e2 : (b2.type == b1.type) = false := by
    rw [h1, h2]
    rfl
  have e3 : (b3.type == b2.type) = false := by
    rw [h2, h3]
    rfl
  have hr : runsByType [b1, b2, b3] = [[b1], [b2], [b3]] := by
    show runsByTypeFuel 3 [b1, b2, b3] = _
    simp [runsByTypeFuel, List.takeWhile_cons, List.dropWhile_cons, e2, e3]
  rw [commentPass]
  rw [hr]
  show (do
    let rs ← ([(none, [b1], some [b2]), (some [b1], [b2], some [b3]),
      (some [b2], [b3], none)].mapM processWindow)
    Except.ok rs.flatten) = _
  have hw1 : processWindow (none, [b1], some [b2]) = Except.ok [b1] := by
    show [b1].mapM (updateComment none (some b2)) = _
    rw [List.mapM_cons, hub1, List.mapM_nil]
    rfl
  have hw2 : processWindow (some [b1], [b2], some [b3]) =
      Except.ok [{ b2 with sentences :=
        { c0 with timeStart := some ts, timeEnd := some te } :: crest }] := by
    show [b2].mapM (updateComment (some b1) (some b3)) = _
    rw [List.mapM_cons, hup, List.mapM_nil]
    rfl
  have hw3 : processWindow (some [b2], [b3], none) = Except.ok [b3] := by
    show [b3].mapM (updateComment (some b2) none) = _
    rw [List.mapM_cons, hub3, List.mapM_nil]
    rfl
  rw [List.mapM_cons, hw1, List.mapM_cons, hw2, List.mapM_cons, hw3, List.mapM_nil]
  rfl

/-- C5 witness: concrete instance of the amended claim. -/
theorem c5_comment_bounds_amended_witness :
    commentPass [exBodyPrev, exBodyComment, exBodyNext] =
      Except.ok [exBodyPrev,
        { exBodyComment with sentences :=
          [{ exSentComment with timeStart := some "10", timeEnd := some "40" }] },
        exBodyNext] :=
  c5_comment_bounds_amended exBodyPrev exBodyComment exBodyNext rfl rfl rfl
    exSentPrev rfl exSentNext rfl exSentComment [] rfl
    "10" "40" rfl (by decide) rfl (by decide)

end Aligner
